import Mathlib

/-!
Verification of the password-credential module of the `kit-rs` repository
(`src/std/password.rs` together with the `PasswordError` type of
`src/traits/password.rs`).

Rust `String`s are embedded as `List Char`.  The external `argon2` crate is
modelled by the structure `Argon2Lib` (an abstract digest function, an
abstract operational-failure oracle for hashing, and an abstract low-level
verifier), while the PHC string format that the crate produces under its
default parameters (Argon2id, v19, `m=19456,t=2,p=1`, 16-byte salt, 32-byte
digest, base64 without padding) is modelled concretely, so that string-level
facts such as the encoded length are provable.  The `Arc<Mutex<String>>`
cell of `Argon2Password` is embedded as the contained string; the lock is
modelled as always acquirable (lock poisoning is a concurrency phenomenon
outside a sequential embedding).  `OsRng` randomness is made explicit: the
16 random salt bytes are a parameter of `Argon2Password.new`.
-/

namespace KitRs

/-- Rust `String`, embedded as a list of characters. -/
abbrev Str := List Char

/-! ### Base64 (standard alphabet, no padding), as used by PHC salt/hash fields -/

/-- The standard base64 alphabet. -/
def b64Alphabet : Str :=
  "ABCDEFGHIJKLMNOPQRSTUVWXYZabcdefghijklmnopqrstuvwxyz0123456789+/".toList

/-- The base64 character of a sextet. -/
def b64Char (n : Nat) : Char := b64Alphabet.getD n 'A'

/-- Base64-encode a byte list, no padding: 3 bytes become 4 characters, a
trailing byte becomes 2 characters, two trailing bytes become 3. -/
def b64Encode : List Nat → Str
  | [] => []
  | [a] => [b64Char (a / 4), b64Char (a % 4 * 16)]
  | [a, b] => [b64Char (a / 4), b64Char (a % 4 * 16 + b / 16), b64Char (b % 16 * 4)]
  | a :: b :: c :: rest =>
      b64Char (a / 4) :: b64Char (a % 4 * 16 + b / 16) ::
      b64Char (b % 16 * 4 + c / 64) :: b64Char (c % 64) :: b64Encode rest

/-- The sextet of a base64 character (its index in the alphabet). -/
def b64DecChar (c : Char) : Nat := b64Alphabet.indexOf c

/-- Base64-decode, the left inverse of `b64Encode` on byte lists. -/
def b64Decode : Str → List Nat
  | [] => []
  | [_] => []
  | [c1, c2] => [b64DecChar c1 * 4 + b64DecChar c2 / 16]
  | [c1, c2, c3] =>
      [b64DecChar c1 * 4 + b64DecChar c2 / 16,
       b64DecChar c2 % 16 * 16 + b64DecChar c3 / 4]
  | c1 :: c2 :: c3 :: c4 :: rest =>
      (b64DecChar c1 * 4 + b64DecChar c2 / 16) ::
      (b64DecChar c2 % 16 * 16 + b64DecChar c3 / 4) ::
      (b64DecChar c3 % 4 * 64 + b64DecChar c4) :: b64Decode rest

/-! ### The PHC string format produced by `argon2` under default parameters -/

/-- The algorithm tag of the default hasher (`Argon2id`). -/
def algTag : Str := "argon2id".toList

/-- The version field (`v=19`). -/
def verTag : Str := "v=19".toList

/-- The default cost parameters of the `argon2` crate: 19 MiB memory,
2 iterations, 1 lane. -/
def paramsTag : Str := "m=19456,t=2,p=1".toList

/-- Build the PHC string `$argon2id$v=19$m=19456,t=2,p=1$<salt>$<hash>` from
the base64 salt and base64 digest fields. -/
def phcEncode (saltB64 digestB64 : Str) : Str :=
  '$' :: (algTag ++ '$' :: (verTag ++ '$' :: (paramsTag ++ '$' :: (saltB64 ++ '$' :: digestB64))))

/-- The fields recovered by parsing a PHC string (`PasswordHash` of the
`password-hash` crate, restricted to the fields the claims touch). -/
structure ParsedHash where
  alg : Str
  version : Str
  params : Str
  saltB64 : Str
  digestB64 : Str
deriving DecidableEq

/-- The `ParsedHash` of a well-formed default-parameter hash. -/
def mkParsed (saltB64 digestB64 : Str) : ParsedHash :=
  ⟨algTag, verTag, paramsTag, saltB64, digestB64⟩

/-- Split a string at every `$` separator (every occurrence delimits a
field, as in the PHC grammar). -/
def splitDollar : Str → List Str
  | [] => [[]]
  | c :: rest =>
      if c = '$' then [] :: splitDollar rest
      else
        match splitDollar rest with
        | [] => [[c]]
        | g :: gs => (c :: g) :: gs

/-- Model of `PasswordHash::new`: parse a PHC string into its fields.
Succeeds exactly on strings of the shape `$<alg>$<ver>$<params>$<salt>$<hash>`
with a recognised Argon2 algorithm tag and nonempty salt and hash fields;
everything else is a parse error. -/
def parsePhc (s : Str) : Option ParsedHash :=
  match splitDollar s with
  | [[], alg, ver, params, salt, digest] =>
      if (alg = algTag ∨ alg = "argon2i".toList ∨ alg = "argon2d".toList) ∧
          salt ≠ [] ∧ digest ≠ [] then
        some ⟨alg, ver, params, salt, digest⟩
      else none
  | _ => none

/-! ### Abstract model of the `argon2` crate -/

/-- Abstract model of the external `argon2` crate.  `digestBytes pw salt` is
the 32-byte Argon2id digest of password `pw` with the (base64-encoded) salt
`salt` under the default parameters; `hashErr` is the operational-failure
oracle of `Argon2::hash_password` (resource exhaustion and the like);
`rawVerify` is `Argon2::verify_password` applied to an already parsed hash,
returning `Except.error` both on digest mismatch and on any internal
failure. -/
structure Argon2Lib where
  digestBytes : Str → Str → List Nat
  hashErr : Str → Str → Option Str
  rawVerify : Str → ParsedHash → Except Str Unit

/-- Whether an `Except` is a success (`Result::is_ok`). -/
def resultIsOk {ε α : Type} : Except ε α → Bool
  | .ok _ => true
  | .error _ => false

/-- Model of `SaltString::generate(&mut OsRng)`: base64-encode the 16 random
bytes drawn from the OS generator (the bytes are an explicit argument). -/
def saltStringGenerate (osRng : List Nat) : Str := b64Encode osRng

/-- The (modelled) message of the `argon2::password_hash::Error` returned by
`PasswordHash::new` on a malformed string. -/
def parseFailMsg : Str := "invalid password hash string".toList

/-! ### The repository code (`src/std/password.rs`) -/

/-- `fn hash_password(password: String) -> Result<String, Error>`: generate a
random salt, hash the password with the default Argon2id parameters, and
return the PHC-encoded result. -/
def hash_password (m : Argon2Lib) (osRng : List Nat) (password : Str) : Except Str Str :=
  match m.hashErr password (saltStringGenerate osRng) with
  | some e => .error e
  | none =>
      .ok (phcEncode (saltStringGenerate osRng)
        (b64Encode (m.digestBytes password (saltStringGenerate osRng))))

/-- `fn verify_password(password: String, hash: String) -> Result<bool, Error>`:
parse the stored hash (propagating the parse error with `?`), then collapse
the raw verification result to a boolean with `.is_ok()`. -/
def verify_password (m : Argon2Lib) (password hash : Str) : Except Str Bool :=
  match parsePhc hash with
  | none => .error parseFailMsg
  | some parsed_hash => .ok (resultIsOk (m.rawVerify password parsed_hash))

/-- `enum PasswordError` from `src/traits/password.rs`. -/
inductive PasswordError where
  | Hashing : Str → PasswordError
  | Verification : Str → PasswordError
  | Other : Str → PasswordError
deriving DecidableEq

/-- `impl From<argon2::password_hash::Error> for PasswordError`: every argon2
error is converted to the `Hashing` variant. -/
def PasswordError.fromArgon2 (err : Str) : PasswordError := PasswordError.Hashing err

/-- `struct Argon2Password(Arc<Mutex<String>>)`: the thread-safe cell is
embedded as the string it contains. -/
structure Argon2Password where
  stored : Str
deriving DecidableEq

/-- `Argon2Password::to_inner`: clone out the stored hash string. -/
def Argon2Password.to_inner (self : Argon2Password) : Str := self.stored

/-- `Argon2Password::verify` (the `PasswordChecker` impl), in state-passing
form: lock the cell, read the stored hash, run `verify_password` on a clone,
convert any argon2 error through `From`, and return the result together with
the cell contents after the call. -/
def Argon2Password.verifyS (self : Argon2Password) (m : Argon2Lib) (password : Str) :
    Except PasswordError Bool × Argon2Password :=
  match verify_password m password self.stored with
  | .error e => (.error (PasswordError.fromArgon2 e), self)
  | .ok b => (.ok b, self)

/-- The result component of `Argon2Password::verify`. -/
def Argon2Password.verify (self : Argon2Password) (m : Argon2Lib) (password : Str) :
    Except PasswordError Bool :=
  (self.verifyS m password).1

/-- `Argon2Password::new`: hash the password with a fresh random salt and wrap
the encoded string. -/
def Argon2Password.new (m : Argon2Lib) (osRng : List Nat) (password : Str) :
    Except PasswordError Argon2Password :=
  match hash_password m osRng password with
  | .error e => .error (PasswordError.fromArgon2 e)
  | .ok h => .ok ⟨h⟩

/-- The `serde::Serialize` impl: serialize the stored hash string. -/
def Argon2Password.serialize (self : Argon2Password) : Str := self.stored

/-- The `serde::Deserialize` impl: wrap the given string verbatim, with no
re-hashing and no validation. -/
def Argon2Password.deserialize (s : Str) : Argon2Password := ⟨s⟩

/-! ### Correctness assumptions about the external crate -/

/-- The properties of the real `argon2` crate that the claims rely on:
the digest is 32 bytes of value < 256; verification of a password against
the hash it produced succeeds; and verification succeeds only when the
stored digest field equals the recomputed digest. -/
structure GoodArgon2 (m : Argon2Lib) : Prop where
  digest_len : ∀ pw s, (m.digestBytes pw s).length = 32
  digest_lt : ∀ pw s, ∀ x ∈ m.digestBytes pw s, x < 256
  complete : ∀ pw s, m.rawVerify pw (mkParsed s (b64Encode (m.digestBytes pw s))) = .ok ()
  sound : ∀ pw ph, m.rawVerify pw ph = .ok () →
    ph.digestB64 = b64Encode (m.digestBytes pw ph.saltB64)

/-! ### Lemmas about the string-format model -/

theorem b64Char_lt_ne_dollar : ∀ n < 64, b64Char n ≠ '$' := by decide

theorem b64Char_ne_dollar (n : Nat) : b64Char n ≠ '$' := by
  by_cases h : n < 64
  · exact b64Char_lt_ne_dollar n h
  · have hlen : b64Alphabet.length = 64 := by decide
    unfold b64Char
    rw [List.getD_eq_default]
    · decide
    · omega

theorem b64Encode_no_dollar (l : List Nat) : '$' ∉ b64Encode l := by
  induction l using b64Encode.induct with
  | case1 => simp [b64Encode]
  | case2 a =>
    simp only [b64Encode, List.mem_cons, List.not_mem_nil, or_false]
    exact not_or.mpr ⟨fun h => b64Char_ne_dollar _ h.symm,
      fun h => b64Char_ne_dollar _ h.symm⟩
  | case3 a b =>
    simp only [b64Encode, List.mem_cons, List.not_mem_nil, or_false]
    push_neg
    exact ⟨fun h => b64Char_ne_dollar _ h.symm, fun h => b64Char_ne_dollar _ h.symm,
      fun h => b64Char_ne_dollar _ h.symm⟩
  | case4 a b c rest ih =>
    simp only [b64Encode, List.mem_cons]
    push_neg
    exact ⟨fun h => b64Char_ne_dollar _ h.symm, fun h => b64Char_ne_dollar _ h.symm,
      fun h => b64Char_ne_dollar _ h.symm, fun h => b64Char_ne_dollar _ h.symm, ih⟩

theorem b64Encode_length (l : List Nat) :
    (b64Encode l).length = (l.length * 4 + 2) / 3 := by
  induction l using b64Encode.induct with
  | case1 => rfl
  | case2 a => simp [b64Encode]
  | case3 a b => simp [b64Encode]
  | case4 a b c rest ih =>
    simp only [b64Encode, List.length_cons, ih]
    omega

theorem b64DecChar_b64Char : ∀ n < 64, b64DecChar (b64Char n) = n := by decide

theorem b64Decode_b64Encode (l : List Nat) (hl : ∀ x ∈ l, x < 256) :
    b64Decode (b64Encode l) = l := by
  induction l using b64Encode.induct with
  | case1 => rfl
  | case2 a =>
    have ha : a < 256 := hl a (by simp)
    simp only [b64Encode, b64Decode]
    rw [b64DecChar_b64Char _ (by omega), b64DecChar_b64Char _ (by omega)]
    congr 1
    omega
  | case3 a b =>
    have ha : a < 256 := hl a (by simp)
    have hb : b < 256 := hl b (by simp)
    simp only [b64Encode, b64Decode]
    rw [b64DecChar_b64Char _ (by omega), b64DecChar_b64Char _ (by omega),
      b64DecChar_b64Char _ (by omega)]
    congr 1
    · omega
    · congr 1
      omega
  | case4 a b c rest ih =>
    have ha : a < 256 := hl a (by simp)
    have hb : b < 256 := hl b (by simp)
    have hc : c < 256 := hl c (by simp)
    have hrest : ∀ x ∈ rest, x < 256 := fun x hx => hl x (by simp [hx])
    have hne : b64Encode rest = [] ∨ ∃ d1 d2 tl, b64Encode rest = d1 :: d2 :: tl := by
      match hrest2 : b64Encode rest with
      | [] => exact Or.inl rfl
      | [d] =>
        exfalso
        have := b64Encode_length rest
        rw [hrest2] at this
        simp at this
        omega
      | d1 :: d2 :: tl => exact Or.inr ⟨d1, d2, tl, rfl⟩
    simp only [b64Encode]
    rcases hne with hne | ⟨d1, d2, tl, hne⟩ <;>
    · rw [hne]
      rw [hne] at ih
      simp only [b64Decode]
      rw [b64DecChar_b64Char _ (by omega), b64DecChar_b64Char _ (by omega),
        b64DecChar_b64Char _ (by omega), b64DecChar_b64Char _ (by omega)]
      refine List.cons_eq_cons.mpr ⟨by omega, List.cons_eq_cons.mpr ⟨by omega,
        List.cons_eq_cons.mpr ⟨by omega, ih hrest⟩⟩⟩

theorem b64Encode_injOn {l1 l2 : List Nat} (h1 : ∀ x ∈ l1, x < 256)
    (h2 : ∀ x ∈ l2, x < 256) (h : b64Encode l1 = b64Encode l2) : l1 = l2 := by
  rw [← b64Decode_b64Encode l1 h1, ← b64Decode_b64Encode l2 h2, h]

theorem b64Encode_ne_nil {l : List Nat} (h : l ≠ []) : b64Encode l ≠ [] := by
  intro hc
  have := b64Encode_length l
  rw [hc] at this
  simp at this
  have : l.length = 0 := by omega
  exact h (List.length_eq_zero.mp this)

theorem splitDollar_dollar_cons (t : Str) : splitDollar ('$' :: t) = [] :: splitDollar t := by
  simp [splitDollar]

theorem splitDollar_ne_nil (s : Str) : splitDollar s ≠ [] := by
  induction s with
  | nil => simp [splitDollar]
  | cons c rest ih =>
    simp only [splitDollar]
    split
    · simp
    · match h : splitDollar rest with
      | [] => simp
      | g :: gs => simp

theorem splitDollar_no_dollar {a : Str} (ha : '$' ∉ a) : splitDollar a = [a] := by
  induction a with
  | nil => rfl
  | cons c rest ih =>
    have hc : c ≠ '$' := fun h => ha (by simp [h])
    have hrest : '$' ∉ rest := fun h => ha (by simp [h])
    simp only [splitDollar, if_neg hc, ih hrest]

theorem splitDollar_append {a b : Str} (ha : '$' ∉ a) :
    splitDollar (a ++ '$' :: b) = a :: splitDollar b := by
  induction a with
  | nil => simp [splitDollar]
  | cons c rest ih =>
    have hc : c ≠ '$' := fun h => ha (by simp [h])
    have hrest : '$' ∉ rest := fun h => ha (by simp [h])
    simp only [List.cons_append, splitDollar, if_neg hc, List.append_eq]
    rw [ih hrest]

theorem splitDollar_phcEncode {s d : Str} (hs : '$' ∉ s) (hd : '$' ∉ d) :
    splitDollar (phcEncode s d) = [[], algTag, verTag, paramsTag, s, d] := by
  have htag : '$' ∉ algTag := by decide
  have hver : '$' ∉ verTag := by decide
  have hpar : '$' ∉ paramsTag := by decide
  unfold phcEncode
  rw [splitDollar_dollar_cons, splitDollar_append htag, splitDollar_append hver,
    splitDollar_append hpar, splitDollar_append hs, splitDollar_no_dollar hd]

theorem parsePhc_phcEncode {s d : Str} (hs : '$' ∉ s) (hd : '$' ∉ d)
    (hsne : s ≠ []) (hdne : d ≠ []) :
    parsePhc (phcEncode s d) = some (mkParsed s d) := by
  unfold parsePhc
  rw [splitDollar_phcEncode hs hd]
  simp [mkParsed, hsne, hdne]

/-! ### Derived facts about the embedded code -/

theorem new_stored {m : Argon2Lib} {r : List Nat} {pw : Str} {c : Argon2Password}
    (hc : Argon2Password.new m r pw = .ok c) :
    m.hashErr pw (b64Encode r) = none ∧
    c.stored = phcEncode (b64Encode r) (b64Encode (m.digestBytes pw (b64Encode r))) := by
  unfold Argon2Password.new hash_password saltStringGenerate at hc
  match he : m.hashErr pw (b64Encode r) with
  | some e => rw [he] at hc; simp at hc
  | none =>
    rw [he] at hc
    simp at hc
    exact ⟨rfl, congrArg Argon2Password.stored hc.symm⟩

theorem verify_of_parse {m : Argon2Lib} {c : Argon2Password} {pw : Str} {ph : ParsedHash}
    (hp : parsePhc c.stored = some ph) :
    c.verify m pw = .ok (resultIsOk (m.rawVerify pw ph)) := by
  unfold Argon2Password.verify Argon2Password.verifyS verify_password
  rw [hp]

theorem verify_of_parse_fail {m : Argon2Lib} {c : Argon2Password} {pw : Str}
    (hp : parsePhc c.stored = none) :
    c.verify m pw = .error (PasswordError.Hashing parseFailMsg) := by
  unfold Argon2Password.verify Argon2Password.verifyS verify_password
  rw [hp]
  rfl

theorem parse_new_stored {m : Argon2Lib} (hm : GoodArgon2 m) {r : List Nat} {pw : Str}
    {c : Argon2Password} (hr : r ≠ []) (hc : Argon2Password.new m r pw = .ok c) :
    parsePhc c.stored =
      some (mkParsed (b64Encode r) (b64Encode (m.digestBytes pw (b64Encode r)))) := by
  rw [(new_stored hc).2]
  have hdig : m.digestBytes pw (b64Encode r) ≠ [] := by
    intro h
    have := hm.digest_len pw (b64Encode r)
    rw [h] at this
    simp at this
  exact parsePhc_phcEncode (b64Encode_no_dollar r) (b64Encode_no_dollar _)
    (b64Encode_ne_nil hr) (b64Encode_ne_nil hdig)

/-! ### A concrete instance of the library model, used to instantiate the
universally quantified theorems on explicit inputs -/

/-- A toy digest function: 32 bytes of 1 for the password of the repository's
own test, 32 bytes of 0 for every other password. -/
def witDigest (pw : Str) (_salt : Str) : List Nat :=
  if pw = "mysecretpassword".toList then List.replicate 32 1 else List.replicate 32 0

/-- A concrete `Argon2Lib`: hashing never fails operationally, and the raw
verifier succeeds exactly when the stored digest field equals the recomputed
digest. -/
def witLib : Argon2Lib where
  digestBytes := witDigest
  hashErr := fun _ _ => none
  rawVerify := fun pw ph =>
    if ph.digestB64 = b64Encode (witDigest pw ph.saltB64) then .ok ()
    else .error ("invalid password".toList)

theorem witLib_good : GoodArgon2 witLib := by
  constructor
  · intro pw s
    simp only [witLib, witDigest]
    split <;> simp
  · intro pw s x hx
    simp only [witLib, witDigest] at hx
    split at hx <;> · have := List.eq_of_mem_replicate hx; omega
  · intro pw s
    simp [witLib, mkParsed]
  · intro pw ph h
    by_cases hd : ph.digestB64 = b64Encode (witDigest pw ph.saltB64)
    · exact hd
    · simp only [witLib, if_neg hd] at h
      exact absurd h (by simp)

/-- A fixed 16-byte salt for concrete instantiations. -/
def witSalt : List Nat := List.replicate 16 0

/-- A second, distinct 16-byte salt. -/
def witSalt2 : List Nat := 1 :: List.replicate 15 0

theorem phcEncode_length (s d : Str) :
    (phcEncode s d).length = 32 + (s.length + d.length) := by
  have h1 : algTag.length = 8 := by decide
  have h2 : verTag.length = 4 := by decide
  have h3 : paramsTag.length = 15 := by decide
  simp [phcEncode, h1, h2, h3]
  omega

/-! ### The claims -/

/-- C1: for every plaintext password P, hashing P with a fresh salt via
`Argon2Password::new` and then calling `verify` with the same P yields
`Ok(true)` — not false and not an error.  The salt bytes drawn from `OsRng`
are an explicit nonempty argument, and the external crate is assumed to
satisfy `GoodArgon2`. -/
theorem C1_create_verify_ok (m : Argon2Lib) (hm : GoodArgon2 m)
    (r : List Nat) (pw : Str) (hr : r ≠ []) (c : Argon2Password)
    (hc : Argon2Password.new m r pw = .ok c) :
    c.verify m pw = .ok true := by
  rw [verify_of_parse (parse_new_stored hm hr hc), hm.complete pw (b64Encode r)]
  rfl

/-- Witness for C1: the concrete credential built from password `pw` and the
all-zero 16-byte salt verifies `pw` with `Ok(true)`. -/
theorem C1_create_verify_ok_witness :
    (Argon2Password.mk (phcEncode (b64Encode witSalt)
        (b64Encode (witDigest "pw".toList (b64Encode witSalt))))).verify
      witLib "pw".toList = .ok true :=
  C1_create_verify_ok witLib witLib_good witSalt "pw".toList (by decide) _ rfl

/-- C2: for distinct plaintext passwords P and Q, verifying Q against the
credential produced from P returns `Ok(false)`, assuming (as the claim does)
that the underlying digest function separates the two test inputs. -/
theorem C2_no_false_positive (m : Argon2Lib) (hm : GoodArgon2 m)
    (r : List Nat) (p q : Str) (hr : r ≠ []) (hpq : p ≠ q)
    (hsep : m.digestBytes p (b64Encode r) ≠ m.digestBytes q (b64Encode r))
    (c : Argon2Password) (hc : Argon2Password.new m r p = .ok c) :
    c.verify m q = .ok false := by
  rw [verify_of_parse (parse_new_stored hm hr hc)]
  match hv : m.rawVerify q (mkParsed (b64Encode r)
      (b64Encode (m.digestBytes p (b64Encode r)))) with
  | .error e => rfl
  | .ok u =>
    exfalso
    have hs := hm.sound q _ hv
    simp only [mkParsed] at hs
    exact hsep (b64Encode_injOn (hm.digest_lt p _) (hm.digest_lt q _) hs)

/-- Witness for C2: the credential for "mysecretpassword" rejects
"wrongpassword" with `Ok(false)`. -/
theorem C2_no_false_positive_witness :
    (Argon2Password.mk (phcEncode (b64Encode witSalt)
        (b64Encode (witDigest "mysecretpassword".toList (b64Encode witSalt))))).verify
      witLib "wrongpassword".toList = .ok false :=
  C2_no_false_positive witLib witLib_good witSalt
    "mysecretpassword".toList "wrongpassword".toList
    (by decide) (by decide) (by decide) _ rfl

/-- C5: exporting the credential created from P with `serialize`/`to_inner`,
importing the string back with `deserialize`, and verifying P on the imported
credential returns `Ok(true)`. -/
theorem C5_serde_roundtrip_verifies (m : Argon2Lib) (hm : GoodArgon2 m)
    (r : List Nat) (pw : Str) (hr : r ≠ []) (c : Argon2Password)
    (hc : Argon2Password.new m r pw = .ok c) :
    (Argon2Password.deserialize (Argon2Password.serialize c)).verify m pw = .ok true := by
  have hid : Argon2Password.deserialize (Argon2Password.serialize c) = c := rfl
  rw [hid, verify_of_parse (parse_new_stored hm hr hc), hm.complete pw (b64Encode r)]
  rfl

/-- Witness for C5: the round trip on a concrete credential. -/
theorem C5_serde_roundtrip_verifies_witness :
    (Argon2Password.deserialize (Argon2Password.serialize
        (Argon2Password.mk (phcEncode (b64Encode witSalt)
          (b64Encode (witDigest "pw2".toList (b64Encode witSalt))))))).verify
      witLib "pw2".toList = .ok true :=
  C5_serde_roundtrip_verifies witLib witLib_good witSalt "pw2".toList (by decide) _ rfl

/-- C3: the claim says a malformed stored hash makes `verify` fail with the
`PasswordError::Verification` variant.  The code disagrees: the blanket
`From<argon2::password_hash::Error>` conversion produces the `Hashing`
variant on every argon2 error, so a parse failure during verification
surfaces as `PasswordError::Hashing` — an error (no panic, no boolean), but
of the wrong variant; `PasswordError::Verification` is never constructed
anywhere in the crate. -/
theorem C3_malformed_error_is_hashing_variant :
    ((Argon2Password.deserialize "corrupted".toList).verify witLib "pw".toList
      = .error (PasswordError.Hashing parseFailMsg)) ∧
    ∀ msg : Str,
      (Argon2Password.deserialize "corrupted".toList).verify witLib "pw".toList
        ≠ .error (PasswordError.Verification msg) := by
  have h1 : (Argon2Password.deserialize "corrupted".toList).verify witLib "pw".toList
      = .error (PasswordError.Hashing parseFailMsg) :=
    verify_of_parse_fail (by decide)
  refine ⟨h1, fun msg h => ?_⟩
  rw [h1] at h
  simp at h

/-- C4: a wrong password is never an error — whenever the stored hash parses
successfully and the raw verifier rejects the candidate (digest mismatch,
reported by the crate as `Err`), `verify` returns `Ok(false)`, not `Err`. -/
theorem C4_wrong_password_not_error (m : Argon2Lib) (c : Argon2Password)
    (pw : Str) (ph : ParsedHash) (e : Str)
    (hp : parsePhc c.stored = some ph)
    (hv : m.rawVerify pw ph = .error e) :
    c.verify m pw = .ok false := by
  rw [verify_of_parse hp, hv]
  rfl

/-- Witness for C4 on a concrete parseable credential and rejected
candidate. -/
theorem C4_wrong_password_not_error_witness :
    (Argon2Password.mk (phcEncode (b64Encode witSalt)
        (b64Encode (witDigest "mysecretpassword".toList (b64Encode witSalt))))).verify
      witLib "letmein".toList = .ok false :=
  C4_wrong_password_not_error witLib _ "letmein".toList
    (mkParsed (b64Encode witSalt)
      (b64Encode (witDigest "mysecretpassword".toList (b64Encode witSalt))))
    ("invalid password".toList) (by decide) (by rfl)

/-- C6: two calls to `create` with the same plaintext but distinct random
salts produce different encoded hash strings, and each resulting credential
still verifies the plaintext with `Ok(true)`. -/
theorem C6_distinct_salts_distinct_hashes (m : Argon2Lib) (hm : GoodArgon2 m)
    (r1 r2 : List Nat) (pw : Str) (h1 : r1 ≠ []) (h2 : r2 ≠ [])
    (hb1 : ∀ x ∈ r1, x < 256) (hb2 : ∀ x ∈ r2, x < 256) (hne : r1 ≠ r2)
    (c1 c2 : Argon2Password)
    (hc1 : Argon2Password.new m r1 pw = .ok c1)
    (hc2 : Argon2Password.new m r2 pw = .ok c2) :
    c1.to_inner ≠ c2.to_inner ∧
    c1.verify m pw = .ok true ∧ c2.verify m pw = .ok true := by
  refine ⟨fun heq => ?_, ?_, ?_⟩
  · have heq' : c1.stored = c2.stored := heq
    have hp1 := parse_new_stored hm h1 hc1
    have hp2 := parse_new_stored hm h2 hc2
    rw [heq', hp2] at hp1
    have hfields := Option.some.inj hp1
    have hsalts : b64Encode r2 = b64Encode r1 := congrArg ParsedHash.saltB64 hfields
    exact hne (b64Encode_injOn hb1 hb2 hsalts.symm)
  · rw [verify_of_parse (parse_new_stored hm h1 hc1), hm.complete pw (b64Encode r1)]
    rfl
  · rw [verify_of_parse (parse_new_stored hm h2 hc2), hm.complete pw (b64Encode r2)]
    rfl

/-- Witness for C6: two concrete distinct 16-byte salts yield distinct
stored strings, both verifying the password. -/
theorem C6_distinct_salts_distinct_hashes_witness :
    (Argon2Password.mk (phcEncode (b64Encode witSalt)
        (b64Encode (witDigest "pw6".toList (b64Encode witSalt))))).to_inner ≠
      (Argon2Password.mk (phcEncode (b64Encode witSalt2)
        (b64Encode (witDigest "pw6".toList (b64Encode witSalt2))))).to_inner ∧
    (Argon2Password.mk (phcEncode (b64Encode witSalt)
        (b64Encode (witDigest "pw6".toList (b64Encode witSalt))))).verify
      witLib "pw6".toList = .ok true ∧
    (Argon2Password.mk (phcEncode (b64Encode witSalt2)
        (b64Encode (witDigest "pw6".toList (b64Encode witSalt2))))).verify
      witLib "pw6".toList = .ok true :=
  C6_distinct_salts_distinct_hashes witLib witLib_good witSalt witSalt2 "pw6".toList
    (by decide) (by decide) (by decide) (by decide) (by decide) _ _ rfl rfl

/-- C7: `deserialize` accepts every string, stores it verbatim (so `to_inner`
returns exactly the input), and a malformed string surfaces its error only
when `verify` is later called and parsing fails. -/
theorem C7_deserialize_verbatim (s : Str) :
    (Argon2Password.deserialize s).to_inner = s ∧
    ∀ (m : Argon2Lib) (pw : Str), parsePhc s = none →
      (Argon2Password.deserialize s).verify m pw
        = .error (PasswordError.Hashing parseFailMsg) :=
  ⟨rfl, fun _ _ hp => verify_of_parse_fail hp⟩

/-- Witness for C7 on a concrete malformed string. -/
theorem C7_deserialize_verbatim_witness :
    (Argon2Password.deserialize "garbage".toList).to_inner = "garbage".toList ∧
    (Argon2Password.deserialize "garbage".toList).verify witLib "pw".toList
      = .error (PasswordError.Hashing parseFailMsg) :=
  ⟨(C7_deserialize_verbatim "garbage".toList).1,
   (C7_deserialize_verbatim "garbage".toList).2 witLib "pw".toList (by decide)⟩

/-- C8: `verify` never mutates the stored hash: the cell contents observed by
`to_inner` after any call (state-passing embedding `verifyS`) equal the
contents before, whatever the result. -/
theorem C8_verify_preserves_stored (m : Argon2Lib) (c : Argon2Password) (pw : Str) :
    ((c.verifyS m pw).2).to_inner = c.to_inner := by
  cases h : verify_password m pw c.stored <;>
    simp [Argon2Password.verifyS, Argon2Password.to_inner, h]

/-- C9: for the concrete password "mysecretpassword", `create` yields an
encoded string of length 97 (Argon2id v19 defaults: 22-character salt field
and 43-character hash field), verifying "mysecretpassword" returns
`Ok(true)`, and verifying "wrongpassword" returns `Ok(false)` (the two
passwords having distinct digests). -/
theorem C9_concrete_scenario (m : Argon2Lib) (hm : GoodArgon2 m)
    (r : List Nat) (hr : r.length = 16)
    (hsep : m.digestBytes "wrongpassword".toList (b64Encode r)
      ≠ m.digestBytes "mysecretpassword".toList (b64Encode r))
    (c : Argon2Password)
    (hc : Argon2Password.new m r "mysecretpassword".toList = .ok c) :
    c.to_inner.length = 97 ∧
    c.verify m "mysecretpassword".toList = .ok true ∧
    c.verify m "wrongpassword".toList = .ok false := by
  have hrne : r ≠ [] := by
    intro h
    rw [h] at hr
    simp at hr
  refine ⟨?_, ?_, ?_⟩
  · have hst := (new_stored hc).2
    have hlen : c.to_inner.length = (phcEncode (b64Encode r)
        (b64Encode (m.digestBytes "mysecretpassword".toList (b64Encode r)))).length :=
      congrArg List.length hst
    rw [hlen, phcEncode_length, b64Encode_length, b64Encode_length, hr,
      hm.digest_len "mysecretpassword".toList (b64Encode r)]
  · rw [verify_of_parse (parse_new_stored hm hrne hc), hm.complete _ (b64Encode r)]
    rfl
  · rw [verify_of_parse (parse_new_stored hm hrne hc)]
    match hv : m.rawVerify "wrongpassword".toList (mkParsed (b64Encode r)
        (b64Encode (m.digestBytes "mysecretpassword".toList (b64Encode r)))) with
    | .error e => rfl
    | .ok u =>
      exfalso
      have hs := hm.sound "wrongpassword".toList _ hv
      simp only [mkParsed] at hs
      exact hsep (b64Encode_injOn (hm.digest_lt _ _) (hm.digest_lt _ _) hs.symm)

/-- Witness for C9 on the all-zero salt and the concrete library model. -/
theorem C9_concrete_scenario_witness :
    (Argon2Password.mk (phcEncode (b64Encode witSalt)
        (b64Encode (witDigest "mysecretpassword".toList (b64Encode witSalt))))).to_inner.length
      = 97 ∧
    (Argon2Password.mk (phcEncode (b64Encode witSalt)
        (b64Encode (witDigest "mysecretpassword".toList (b64Encode witSalt))))).verify
      witLib "mysecretpassword".toList = .ok true ∧
    (Argon2Password.mk (phcEncode (b64Encode witSalt)
        (b64Encode (witDigest "mysecretpassword".toList (b64Encode witSalt))))).verify
      witLib "wrongpassword".toList = .ok false :=
  C9_concrete_scenario witLib witLib_good witSalt (by decide) (by decide) _ rfl

/-- C10: once the stored hash parses, `verify` returns exactly the boolean
collapse (`is_ok`) of the raw verification result; in particular every
post-parse failure of the underlying routine, whatever its error, becomes
`Ok(false)`, indistinguishable from a wrong password. -/
theorem C10_post_parse_errors_collapse (m : Argon2Lib) (c : Argon2Password)
    (pw : Str) (ph : ParsedHash) (hp : parsePhc c.stored = some ph) :
    c.verify m pw = .ok (resultIsOk (m.rawVerify pw ph)) ∧
    ∀ e : Str, m.rawVerify pw ph = .error e → c.verify m pw = .ok false := by
  refine ⟨verify_of_parse hp, fun e he => ?_⟩
  rw [verify_of_parse hp, he]
  rfl

/-- Witness for C10 on a concrete parseable credential whose raw verification
errors. -/
theorem C10_post_parse_errors_collapse_witness :
    (Argon2Password.mk (phcEncode (b64Encode witSalt)
        (b64Encode (witDigest "mysecretpassword".toList (b64Encode witSalt))))).verify
      witLib "12345".toList = .ok false :=
  (C10_post_parse_errors_collapse witLib _ "12345".toList
    (mkParsed (b64Encode witSalt)
      (b64Encode (witDigest "mysecretpassword".toList (b64Encode witSalt))))
    (by decide)).2 ("invalid password".toList) (by rfl)

end KitRs
